import Mathlib

/-!
Verification of the portfolio-metrics pipeline of `src/var.py`
(portfolio weights, pandas-style return-series construction, portfolio
aggregation, Sharpe/Sortino/VaR metrics, and the control flow of the
"Run Simulation" action).

Numbers are modelled exactly by `ℚ`.  A float value that is NaN or
infinite (the degenerate values the script can produce and display) is
modelled as `none : Option ℚ`; a finite value `x` is `some x`.  The
standard deviations that feed Sharpe/Sortino are square roots, so the
value-level Sortino formula lives in `ℝ` (`Real.sqrt` of the rational
sample variance); every branching condition of the pipeline is decided
on the rational side, faithful to the source.
-/

/-- Cells of a pandas price/return table: `none` models a missing value
(NaN) for that date and ticker. -/
abbrev OptQ := Option ℚ

/-- A pandas DataFrame of prices or returns: a list of date rows, each a
list of per-ticker cells. -/
abbrev Table := List (List OptQ)

/-- One cell of `DataFrame.pct_change()` (src/var.py line 90):
`cur / prev - 1`, undefined when either value is missing.  A zero
previous price yields a non-finite value (inf or NaN) in the source and
is likewise modelled as undefined; all claims assume nonzero prices. -/
def pctCell (prev cur : OptQ) : OptQ :=
  match prev, cur with
  | some p, some c => if p = 0 then none else some (c / p - 1)
  | _, _ => none

/-- One row of `pct_change`: cell-wise change from the previous date row. -/
def pctRow (prev cur : List OptQ) : List OptQ :=
  List.zipWith pctCell prev cur

/-- `DataFrame.pct_change()` (src/var.py line 90): the first row is all
NaN (there is no previous row), and row `i` holds the fractional change
from row `i - 1`. -/
def pctChange : Table → Table
  | [] => []
  | r :: rs => r.map (fun _ => none) :: List.zipWith pctRow (r :: rs) rs

/-- A row with no missing cell, i.e. a row `DataFrame.dropna()` keeps. -/
def isCompleteRow (row : List OptQ) : Bool :=
  row.all Option.isSome

/-- `DataFrame.dropna()` (src/var.py line 90): drop every row that
contains at least one missing value (row-wise, `how='any'`). -/
def dropna (t : Table) : Table :=
  t.filter isCompleteRow

/-- `daily_returns = historical_data.pct_change().dropna()`
(src/var.py line 90). -/
def dailyReturns (t : Table) : Table :=
  dropna (pctChange t)

/-- Cell `(i, j)` of a table, `none` when out of range or missing. -/
def getCell (t : Table) (i j : ℕ) : OptQ :=
  (t.getD i []).getD j none

/-- One holding of the portfolio as entered in the sidebar form
(src/var.py lines 31-36): ticker, average price paid, quantity bought. -/
structure Holding where
  ticker : String
  avgPrice : ℚ
  quantity : ℕ
deriving DecidableEq

/-- `portfolio_df["Total Investment"] = Avg Price * Quantity`
(src/var.py line 42). -/
def totalInvestment (h : Holding) : ℚ :=
  h.avgPrice * h.quantity

/-- `total_portfolio_value = portfolio_df["Total Investment"].sum()`
(src/var.py line 43). -/
def totalValue (p : List Holding) : ℚ :=
  (p.map totalInvestment).sum

/-- `portfolio_df["Weight"] = Total Investment / total_portfolio_value`
(src/var.py line 44).  When the total is zero the float division yields
non-finite values (NaN or inf), modelled as `none`. -/
def weightsO (p : List Holding) : List OptQ :=
  if totalValue p = 0 then p.map (fun _ => none)
  else p.map (fun h => some (totalInvestment h / totalValue p))

/-- Float addition with NaN/inf propagation (degenerate absorbs). -/
def oadd : OptQ → OptQ → OptQ
  | some a, some b => some (a + b)
  | _, _ => none

/-- Sum of a list of float values, NaN/inf propagating. -/
def osum : List OptQ → OptQ
  | [] => some 0
  | x :: xs => oadd x (osum xs)

/-- Float multiplication with NaN/inf propagation. -/
def omulCell : OptQ → OptQ → OptQ
  | some a, some b => some (a * b)
  | _, _ => none

/-- One entry of `daily_returns.dot(weights)` (src/var.py line 94): the
dot product of a date row with the weight vector, NaN when any weight is
degenerate. -/
def dotRow (row w : List OptQ) : OptQ :=
  osum (List.zipWith omulCell row w)

/-- Dot product of an (aligned, fully defined) return row with the
weight vector, the exact arithmetic of src/var.py line 94. -/
def dotQ (xs ws : List ℚ) : ℚ :=
  (List.zipWith (fun a b => a * b) xs ws).sum

/-- `portfolio_returns = daily_returns.dot(weights)` (src/var.py
lines 93-94) on an aligned return table: one value per date. -/
def portfolioReturns (rt : List (List ℚ)) (w : List ℚ) : List ℚ :=
  rt.map (fun row => dotQ row w)

/-- Arithmetic mean of a series, `Series.mean()`; only used on nonempty
series (pandas returns NaN on an empty one, see `pmeanO`). -/
def meanQ (l : List ℚ) : ℚ :=
  l.sum / l.length

/-- Sample variance, the square of `Series.std()` (pandas convention,
`ddof = 1`); only meaningful for series of length at least 2. -/
def sampleVar (l : List ℚ) : ℚ :=
  (l.map (fun x => (x - meanQ l) ^ 2)).sum / ((l.length : ℚ) - 1)

/-- Variance underlying `Series.std()`: NaN (`none`) for fewer than two
observations, else the sample variance.  `Series.std()` itself is its
square root, so it is zero or degenerate exactly when this is. -/
def sampleVarOpt (l : List ℚ) : Option ℚ :=
  if 2 ≤ l.length then some (sampleVar l) else none

/-- The subset `returns[returns < 0]` feeding the Sortino denominator
(src/var.py line 122): the strictly negative returns. -/
def downside (l : List ℚ) : List ℚ :=
  l.filter (fun x => x < 0)

/-- Finite entries of a float series; pandas reductions skip NaN. -/
def valids (l : List OptQ) : List ℚ :=
  l.filterMap id

/-- `Series.mean()` with pandas NaN semantics: NaN entries are skipped
and the mean of an empty (or all-NaN) series is NaN. -/
def pmeanO (l : List OptQ) : Option ℚ :=
  if (valids l).length = 0 then none else some (meanQ (valids l))

/-- `Series.std()`-degeneracy of a float series (variance level, pandas
NaN semantics): skip NaN, NaN for fewer than two observations. -/
def pvarO (l : List OptQ) : Option ℚ :=
  sampleVarOpt (valids l)

/-- `series[series < 0]` on a float series: a NaN entry compares false
and is excluded. -/
def downsideO (l : List OptQ) : List OptQ :=
  l.filter (fun c => match c with | some x => decide (x < 0) | none => false)

/-- `Series.pct_change()` for the benchmark price series
(src/var.py line 110). -/
def pctChangeS : List OptQ → List OptQ
  | [] => []
  | x :: xs => none :: List.zipWith pctCell (x :: xs) xs

/-- `benchmark_returns = benchmark_data.pct_change().dropna()`
(src/var.py line 110); `Series.dropna()` drops single NaN entries. -/
def benchReturns (l : List OptQ) : List ℚ :=
  (pctChangeS l).filterMap id

/-- The z-score dictionary `{90: 1.28, 95: 1.645, 99: 2.33}`
(src/var.py line 126). -/
def zTable : List (ℕ × ℚ) :=
  [(90, 1.28), (95, 1.645), (99, 2.33)]

/-- Dictionary lookup `z_score = {...}[var_level]` (src/var.py
line 126); `none` models the KeyError raised for an absent level. -/
def zScore (lvl : ℕ) : Option ℚ :=
  zTable.lookup lvl

/-- `portfolio_var = z_score * portfolio_std * total_portfolio_value`
(src/var.py line 127), parametrised by the standard deviation `s` of the
return series and the total portfolio value `V`. -/
def varAmount (lvl : ℕ) (s V : ℚ) : Option ℚ :=
  (zScore lvl).map (fun z => z * s * V)

/-- The value of `Series.std()` on a series of length at least two:
the square root of the sample variance. -/
noncomputable def stdR (l : List ℚ) : ℝ :=
  Real.sqrt (sampleVar l)

/-- `portfolio_sortino = (portfolio_mean - risk_free_rate) /
portfolio_returns[portfolio_returns < 0].std()` (src/var.py line 122).
The result is degenerate (`none`, i.e. NaN or inf) when the series is
empty (NaN mean), when fewer than two returns are negative (NaN
denominator) or when the downside deviation is zero (division by zero on
numpy scalars yields inf/NaN, not an exception). -/
noncomputable def sortinoOpt (l : List ℚ) (rfr : ℚ) : Option ℝ :=
  if l.length = 0 then none
  else if (downside l).length < 2 then none
  else if sampleVar (downside l) = 0 then none
  else some (((meanQ l : ℝ) - (rfr : ℝ)) / stdR (downside l))

/-- Degeneracy record for the metrics the script displays: whether the
portfolio mean, standard deviation, Sharpe ratio and Sortino ratio are
non-finite (NaN or inf) in the rendered output. -/
structure MetricsFlags where
  meanDeg : Bool
  stdDeg : Bool
  sharpeDeg : Bool
  sortinoDeg : Bool
deriving DecidableEq

/-- Outcome of one "Run Simulation" click (src/var.py lines 81-179):
an uncaught exception (no try block covers it, the run crashes), the
data-fetch error branch (lines 85-87, `st.stop`), the caught simulation
error branch (lines 178-179), or the metrics display. -/
inductive RunOutcome where
  | uncaught : RunOutcome
  | fetchError : RunOutcome
  | simError : RunOutcome
  | metrics : MetricsFlags → RunOutcome
deriving DecidableEq

/-- The portfolio return series `daily_returns.dot(weights)` as computed
by the run (src/var.py lines 90-94). -/
def prOf (p : List Holding) (t : Table) : List OptQ :=
  (dailyReturns t).map (fun row => dotRow row (weightsO p))

/-- Degeneracy of the displayed metrics (src/var.py lines 96, 95, 118,
122): the Sharpe ratio is non-finite exactly when the mean is NaN, the
standard deviation is NaN, or the standard deviation is zero; likewise
for Sortino with the downside deviation. -/
def flagsOf (p : List Holding) (t : Table) : MetricsFlags :=
  { meanDeg := (pmeanO (prOf p t)).isNone
    stdDeg := (pvarO (prOf p t)).isNone
    sharpeDeg := (pmeanO (prOf p t)).isNone || (pvarO (prOf p t)).isNone
      || decide (pvarO (prOf p t) = some 0)
    sortinoDeg := (pmeanO (prOf p t)).isNone
      || (pvarO (downsideO (prOf p t))).isNone
      || decide (pvarO (downsideO (prOf p t)) = some 0) }

/-- Control flow of one "Run Simulation" click (src/var.py lines 81-179).
`fetch` and `bfetch` stand for the two external `yf.download` calls
(`none` = the call raised).  In order, faithful to the source:
line 82 reads column `Ticker` of the portfolio DataFrame, which raises
an uncaught KeyError when the portfolio is empty (before any try);
lines 83-87 surface a fetch failure and stop; line 94 `dot` raises an
uncaught ValueError on a column/weights length mismatch (outside any
try); the try of lines 101-177 turns a benchmark fetch failure, the
ZeroDivisionError of line 119 (benchmark std is a built-in float, zero
exactly when the benchmark series has two or more returns of sample
variance zero) and the KeyError of line 126 (confidence level not in the
z-score table) into the caught error branch of lines 178-179; otherwise
the metrics are displayed. -/
def runSimulation (p : List Holding) (fetch : Option Table)
    (bfetch : Option (List OptQ)) (lvl : ℕ) : RunOutcome :=
  if p.isEmpty then RunOutcome.uncaught
  else
    match fetch with
    | none => RunOutcome.fetchError
    | some t =>
      if (dailyReturns t).all (fun row => row.length == p.length) then
        match bfetch with
        | none => RunOutcome.simError
        | some bs =>
          if sampleVarOpt (benchReturns bs) = some 0 then RunOutcome.simError
          else
            match zScore lvl with
            | none => RunOutcome.simError
            | some _ => RunOutcome.metrics (flagsOf p t)
      else RunOutcome.uncaught

/-! ### Helper lemmas -/

lemma osum_map_some (l : List ℚ) : osum (l.map some) = some l.sum := by
  induction l with
  | nil => simp [osum]
  | cons x xs ih => simp [osum, oadd, ih]

lemma sum_map_div {α : Type} (l : List α) (f : α → ℚ) (c : ℚ) :
    (l.map (fun x => f x / c)).sum = (l.map f).sum / c := by
  induction l with
  | nil => simp
  | cons x xs ih => simp [ih, add_div]

lemma totalValue_pos (p : List Holding) (hne : p ≠ [])
    (hpos : ∀ h ∈ p, 0 < h.avgPrice ∧ 1 ≤ h.quantity) :
    0 < totalValue p := by
  refine List.sum_pos _ ?_ (by simpa [List.map_eq_nil_iff] using hne)
  intro x hx
  obtain ⟨h, hh, rfl⟩ := List.mem_map.mp hx
  obtain ⟨hp, hq⟩ := hpos h hh
  have hq1 : (1 : ℚ) ≤ (h.quantity : ℚ) := by exact_mod_cast hq
  exact mul_pos hp (lt_of_lt_of_le one_pos hq1)

/-! ### C1.  Value at Risk: lookup table and formula -/

/-- C1: for every standard deviation `s`, total portfolio value `V` and
confidence level in {90, 95, 99}, the computed VaR is `z * s * V` with
`z` exactly from the lookup table 90 to 1.28, 95 to 1.645, 99 to 2.33;
in particular for `V = 10000`, `s = 0.02`, confidence 95 the VaR is
exactly 329. -/
theorem var_formula_and_scenario :
    (∀ s V : ℚ,
      varAmount 90 s V = some (1.28 * s * V) ∧
      varAmount 95 s V = some (1.645 * s * V) ∧
      varAmount 99 s V = some (2.33 * s * V)) ∧
    varAmount 95 0.02 10000 = some 329 := by
  constructor
  · intro s V
    refine ⟨rfl, rfl, rfl⟩
  · show some ((1.645 : ℚ) * 0.02 * 10000) = some 329
    norm_num

/-! ### C2.  Portfolio weights sum to one -/

/-- C2: for every non-empty portfolio with positive average prices and
positive quantities the computed weights sum to exactly 1; and the two
holdings 100 x 10 and 50 x 20 each get weight one half. -/
theorem weights_sum_to_one :
    (∀ p : List Holding, p ≠ [] →
      (∀ h ∈ p, 0 < h.avgPrice ∧ 1 ≤ h.quantity) →
      osum (weightsO p) = some 1) ∧
    weightsO [⟨"A", 100, 10⟩, ⟨"B", 50, 20⟩] = [some (1/2), some (1/2)] := by
  constructor
  · intro p hne hpos
    have hT : 0 < totalValue p := totalValue_pos p hne hpos
    rw [weightsO, if_neg hT.ne']
    have hmap : (p.map fun h => some (totalInvestment h / totalValue p))
        = (p.map fun h => totalInvestment h / totalValue p).map some := by
      simp [List.map_map, Function.comp]
    have hsum : (p.map fun h => totalInvestment h / totalValue p).sum = 1 := by
      rw [sum_map_div p totalInvestment (totalValue p)]
      exact div_self hT.ne'
    rw [hmap, osum_map_some, hsum]
  · norm_num [weightsO, totalValue, totalInvestment, List.sum_cons]

/-- Witness for C2 at the portfolio of the spec scenario. -/
theorem weights_sum_to_one_witness :
    osum (weightsO [⟨"A", 100, 10⟩, ⟨"B", 50, 20⟩]) = some 1 :=
  weights_sum_to_one.1 [⟨"A", 100, 10⟩, ⟨"B", 50, 20⟩] (by simp)
    (by intro h hh
        rcases List.mem_cons.mp hh with rfl | hh2
        · exact ⟨by norm_num, by norm_num⟩
        · rcases List.mem_singleton.mp hh2 with rfl
          exact ⟨by norm_num, by norm_num⟩)

/-! ### C8.  Empty portfolio: the run crashes instead of recovering -/

/-- C8 (code bug evaluation): clicking "Run Simulation" with an empty
portfolio does not skip the computation gracefully; line 82
`portfolio_df["Ticker"]` raises a KeyError on the empty DataFrame before
any try block, so the run ends in an uncaught exception, whatever the
fetch results and confidence level are. -/
theorem empty_portfolio_run_uncaught :
    ∀ (fetch : Option Table) (bfetch : Option (List OptQ)) (lvl : ℕ),
      runSimulation [] fetch bfetch lvl = RunOutcome.uncaught := by
  intro fetch bfetch lvl
  rfl

/-! ### C9.  Idempotence: dropna is, the full builder is not -/

/-- C9 counterexample: on the already-aligned price table
`[[1], [2], [4]]` the Return Series Builder applied twice gives `[[0]]`
while applied once it gives `[[1], [1]]`, so the builder is not
idempotent. -/
theorem builder_not_idempotent :
    dailyReturns (dailyReturns [[some 1], [some 2], [some 4]]) ≠
      dailyReturns [[some 1], [some 2], [some 4]] := by
  norm_num [dailyReturns, pctChange, pctRow, pctCell, dropna,
    isCompleteRow, List.filter, List.zipWith]

/-- C9 amended: the alignment step of return-series construction (the
row-wise drop of undefined rows) is idempotent — dropping twice equals
dropping once; the full builder is not, since a second application
recomputes percentage changes of the returns themselves. -/
theorem dropna_idempotent :
    ∀ t : Table, dropna (dropna t) = dropna t := by
  intro t
  simp [dropna, List.filter_filter]

/-! ### C4.  Portfolio aggregation is a dot product -/

lemma dotQ_eq_sum (xs ws : List ℚ) (h : xs.length = ws.length) :
    dotQ xs ws = ∑ j ∈ Finset.range ws.length, xs.getD j 0 * ws.getD j 0 := by
  induction xs generalizing ws with
  | nil =>
    have : ws = [] := by
      cases ws with
      | nil => rfl
      | cons w ws2 => simp at h
    subst this
    simp [dotQ]
  | cons x xs2 ih =>
    cases ws with
    | nil => simp at h
    | cons w ws2 =>
      have hlen : xs2.length = ws2.length := by simpa using h
      simp only [List.length_cons]
      rw [Finset.sum_range_succ'
        (fun j => (x :: xs2).getD j 0 * (w :: ws2).getD j 0) ws2.length]
      simp only [List.getD_cons_succ, List.getD_cons_zero]
      rw [← ih ws2 hlen]
      simp [dotQ, List.zipWith, add_comm]

/-- C4: aggregating a return table with a weight vector over the same
tickers yields one value per date, and the value for date `i` is the dot
product of row `i` with the weight vector. -/
theorem portfolio_returns_dot (rt : List (List ℚ)) (w : List ℚ)
    (hsh : ∀ row ∈ rt, row.length = w.length) :
    (portfolioReturns rt w).length = rt.length ∧
    ∀ i, i < rt.length →
      (portfolioReturns rt w).getD i 0 =
        ∑ j ∈ Finset.range w.length, (rt.getD i []).getD j 0 * w.getD j 0 := by
  constructor
  · simp [portfolioReturns]
  · intro i hi
    have hi2 : i < (portfolioReturns rt w).length := by
      simpa [portfolioReturns] using hi
    rw [List.getD_eq_getElem _ _ hi2, List.getD_eq_getElem _ _ hi]
    have hget : (portfolioReturns rt w)[i] = dotQ (rt[i]) w := by
      simp [portfolioReturns]
    rw [hget]
    exact dotQ_eq_sum _ w (hsh _ (List.getElem_mem hi))

/-- Witness for C4 on a concrete 2 x 2 return table. -/
theorem portfolio_returns_dot_witness :
    (portfolioReturns [[(1 : ℚ), 2], [3, 4]] [1/2, 1/2]).length = 2 ∧
    (portfolioReturns [[(1 : ℚ), 2], [3, 4]] [1/2, 1/2]).getD 0 0 =
      ∑ j ∈ Finset.range 2,
        (([[(1 : ℚ), 2], [3, 4]].getD 0 []).getD j 0) * ([(1/2 : ℚ), 1/2].getD j 0) := by
  have hsh : ∀ row ∈ [[(1 : ℚ), 2], [3, 4]], row.length = [(1/2 : ℚ), 1/2].length := by
    intro row hrow
    rcases List.mem_cons.mp hrow with rfl | hrow2
    · rfl
    · rcases List.mem_singleton.mp hrow2 with rfl
      rfl
  exact ⟨(portfolio_returns_dot _ _ hsh).1,
    (portfolio_returns_dot _ _ hsh).2 0 (by norm_num)⟩

/-! ### C5.  Sortino ratio -/

lemma sampleVar_nonneg (l : List ℚ) (h : 2 ≤ l.length) : 0 ≤ sampleVar l := by
  have hnum : 0 ≤ (l.map (fun x => (x - meanQ l) ^ 2)).sum := by
    refine List.sum_nonneg ?_
    intro x hx
    obtain ⟨y, _, rfl⟩ := List.mem_map.mp hx
    positivity
  have hden : 0 < ((l.length : ℚ) - 1) := by
    have : (2 : ℚ) ≤ (l.length : ℚ) := by exact_mod_cast h
    linarith
  exact div_nonneg hnum hden.le

/-- C5: whenever the strictly negative subset of the return series has a
well-defined nonzero sample standard deviation, the Sortino ratio is
exactly (mean of the full series minus the per-period risk-free rate)
divided by the sample standard deviation of the returns strictly below
zero; and on the series [0.01, -0.02, 0.03, -0.01, 0.02] the mean is
0.006 and the downside subset is [-0.02, -0.01]. -/
theorem sortino_formula :
    (∀ (l : List ℚ) (rfr : ℚ), 2 ≤ (downside l).length →
      sampleVar (downside l) ≠ 0 →
      sortinoOpt l rfr =
        some (((meanQ l : ℝ) - (rfr : ℝ)) / Real.sqrt (sampleVar (downside l)))) ∧
    meanQ [0.01, -0.02, 0.03, -0.01, 0.02] = 0.006 ∧
    downside [0.01, -0.02, 0.03, -0.01, 0.02] = [-0.02, -0.01] := by
  refine ⟨?_, ?_, ?_⟩
  · intro l rfr hlen hvar
    have hlnil : l.length ≠ 0 := by
      intro h0
      rw [List.length_eq_zero.mp h0] at hlen
      simp [downside] at hlen
    rw [sortinoOpt, if_neg hlnil, if_neg (by omega), if_neg hvar, stdR]
  · norm_num [meanQ, List.sum_cons]
  · norm_num [downside, List.filter]

/-- Witness for C5 at the spec's example series and the source's
risk-free rate 0.02 / 252. -/
theorem sortino_formula_witness :
    sortinoOpt [0.01, -0.02, 0.03, -0.01, 0.02] (0.02 / 252) =
      some (((meanQ [0.01, -0.02, 0.03, -0.01, 0.02] : ℝ) - ((0.02 / 252 : ℚ) : ℝ)) /
        Real.sqrt (sampleVar (downside [0.01, -0.02, 0.03, -0.01, 0.02]))) :=
  sortino_formula.1 [0.01, -0.02, 0.03, -0.01, 0.02] (0.02 / 252)
    (by norm_num [downside, List.filter])
    (by norm_num [sampleVar, downside, meanQ, List.filter, List.sum_cons])

/-! ### C3.  Return Series Builder: shape, formula, row-wise drop -/

lemma mem_zipWith_elim {α β γ : Type} {f : α → β → γ} {l₁ : List α}
    {l₂ : List β} {x : γ} (h : x ∈ List.zipWith f l₁ l₂) :
    ∃ i, ∃ h1 : i < l₁.length, ∃ h2 : i < l₂.length, x = f (l₁[i]) (l₂[i]) := by
  obtain ⟨i, hi, he⟩ := List.mem_iff_getElem.mp h
  rw [List.length_zipWith] at hi
  exact ⟨i, lt_of_lt_of_le hi (min_le_left _ _),
    lt_of_lt_of_le hi (min_le_right _ _), by rw [← he, List.getElem_zipWith]⟩

lemma pctRow_complete {a b : List OptQ}
    (ha : ∀ c ∈ a, ∃ q, c = some q ∧ q ≠ 0)
    (hb : ∀ c ∈ b, c.isSome = true) :
    isCompleteRow (pctRow a b) = true := by
  simp only [isCompleteRow, pctRow, List.all_eq_true]
  intro c hc
  obtain ⟨i, h1, h2, rfl⟩ := mem_zipWith_elim hc
  obtain ⟨q, hq, hq0⟩ := ha _ (List.getElem_mem h1)
  obtain ⟨q2, hq2⟩ := Option.isSome_iff_exists.mp (hb _ (List.getElem_mem h2))
  rw [hq, hq2]
  simp [pctCell, hq0]

lemma dailyReturns_eq_zip (t : Table) (L : ℕ) (h0 : 0 < L)
    (hL : ∀ row ∈ t, row.length = L)
    (hcell : ∀ row ∈ t, ∀ c ∈ row, ∃ q, c = some q ∧ q ≠ 0) :
    dailyReturns t = List.zipWith pctRow t t.tail := by
  cases t with
  | nil => rfl
  | cons r rs =>
    have hr : r ≠ [] := by
      intro hnil
      have := hL r (by simp)
      rw [hnil] at this
      simp at this
      omega
    have hincomp : ¬ isCompleteRow (r.map (fun _ => none)) = true := by
      cases r with
      | nil => exact absurd rfl hr
      | cons c cs => simp [isCompleteRow]
    simp only [dailyReturns, pctChange, dropna, List.tail_cons]
    rw [List.filter_cons_of_neg hincomp]
    refine List.filter_eq_self.mpr ?_
    intro row hrow
    obtain ⟨i, h1, h2, rfl⟩ := mem_zipWith_elim hrow
    refine pctRow_complete ?_ ?_
    · exact hcell _ (List.getElem_mem h1)
    · intro c hc
      obtain ⟨q, hq, _⟩ :=
        hcell _ (List.mem_cons_of_mem r (List.getElem_mem h2)) c hc
      simp [hq]

/-- C3: on a fully defined price table the builder returns a table of
the same shape minus the first row whose entry for date `i` and ticker
`j` is `(price (i+1) j - price i j) / price i j`; and in general every
surviving row is complete — a row with any undefined cell is dropped
entirely, so a date missing for one ticker is removed for all tickers. -/
theorem daily_returns_shape_and_dropna :
    (∀ (t : Table) (L : ℕ), 0 < L →
      (∀ row ∈ t, row.length = L) →
      (∀ row ∈ t, ∀ c ∈ row, ∃ q, c = some q ∧ q ≠ 0) →
      (dailyReturns t).length = t.length - 1 ∧
      (∀ i j p q, i + 1 < t.length → j < L →
        getCell t i j = some p → getCell t (i + 1) j = some q →
        getCell (dailyReturns t) i j = some ((q - p) / p))) ∧
    (∀ t : Table, ∀ row ∈ dailyReturns t, isCompleteRow row = true) := by
  constructor
  · intro t L h0 hL hcell
    have hzip := dailyReturns_eq_zip t L h0 hL hcell
    have hzlen : (List.zipWith pctRow t t.tail).length = t.length - 1 := by
      simp [List.length_zipWith, List.length_tail]
    constructor
    · rw [hzip, hzlen]
    · intro i j p q hi hj hp hq
      have hit : i < t.length := by omega
      have hi1t : i + 1 < t.length := hi
      have hiz : i < (List.zipWith pctRow t t.tail).length := by omega
      have hrowlen : (t[i]).length = L := hL _ (List.getElem_mem hit)
      have hrowlen1 : (t[i+1]).length = L := hL _ (List.getElem_mem hi1t)
      have hjlt : j < (t[i]).length := by omega
      have hjlt1 : j < (t[i+1]).length := by omega
      have hpj : (t[i])[j] = some p := by
        rw [getCell, List.getD_eq_getElem _ _ hit,
          List.getD_eq_getElem _ _ hjlt] at hp
        exact hp
      have hqj : (t[i+1])[j] = some q := by
        rw [getCell, List.getD_eq_getElem _ _ hi1t,
          List.getD_eq_getElem _ _ hjlt1] at hq
        exact hq
      have hp0 : p ≠ 0 := by
        obtain ⟨q0, he, hne⟩ :=
          hcell _ (List.getElem_mem hit) _ (List.getElem_mem hjlt)
        have hpq : p = q0 := Option.some.inj (by rw [← hpj, he])
        exact hpq.symm ▸ hne
      have htail : i < t.tail.length := by
        rw [List.length_tail]
        omega
      have htl : (t.tail)[i] = t[i + 1] := List.getElem_tail _ _ _
      have hjz : j < ((List.zipWith pctRow t t.tail)[i]).length := by
        rw [List.getElem_zipWith, pctRow, List.length_zipWith, htl,
          hrowlen, hrowlen1]
        omega
      rw [hzip, getCell, List.getD_eq_getElem _ _ hiz,
        List.getD_eq_getElem _ _ hjz]
      simp only [List.getElem_zipWith, pctRow]
      simp only [htl, hpj, hqj]
      have harith : q / p - 1 = (q - p) / p := by
        field_simp
      simp [pctCell, hp0, harith]
  · intro t row hrow
    exact (List.mem_filter.mp hrow).2

/-- Witness for C3 at the price table [[1], [2], [4]]. -/
theorem daily_returns_shape_and_dropna_witness :
    (dailyReturns [[some 1], [some 2], [some 4]]).length = 3 - 1 ∧
    getCell (dailyReturns [[some 1], [some 2], [some 4]]) 0 0 =
      some (((2 : ℚ) - 1) / 1) := by
  have hL : ∀ row ∈ [[some (1 : ℚ)], [some 2], [some 4]], row.length = 1 := by
    intro row hrow
    rcases List.mem_cons.mp hrow with rfl | h2
    · rfl
    rcases List.mem_cons.mp h2 with rfl | h3
    · rfl
    rcases List.mem_singleton.mp h3 with rfl
    rfl
  have hcell : ∀ row ∈ [[some (1 : ℚ)], [some 2], [some 4]],
      ∀ c ∈ row, ∃ q, c = some q ∧ q ≠ 0 := by
    intro row hrow
    rcases List.mem_cons.mp hrow with rfl | h2
    · intro c hc
      rcases List.mem_singleton.mp hc with rfl
      exact ⟨1, rfl, by norm_num⟩
    rcases List.mem_cons.mp h2 with rfl | h3
    · intro c hc
      rcases List.mem_singleton.mp hc with rfl
      exact ⟨2, rfl, by norm_num⟩
    rcases List.mem_singleton.mp h3 with rfl
    intro c hc
    rcases List.mem_singleton.mp hc with rfl
    exact ⟨4, rfl, by norm_num⟩
  have h := daily_returns_shape_and_dropna.1 [[some 1], [some 2], [some 4]]
    1 (by norm_num) hL hcell
  exact ⟨h.1, h.2 0 0 1 2 (by norm_num) (by norm_num) rfl rfl⟩

/-! ### Run control flow helpers -/

lemma isEmpty_false_of_ne {p : List Holding} (hp : p ≠ []) : p.isEmpty = false := by
  cases p with
  | nil => exact absurd rfl hp
  | cons a l => rfl

lemma run_reaches_metrics (p : List Holding) (t : Table) (bs : List OptQ)
    (lvl : ℕ) (hp : p ≠ [])
    (hall : ((dailyReturns t).all fun row => row.length == p.length) = true)
    (hbs : sampleVarOpt (benchReturns bs) ≠ some 0)
    (z : ℚ) (hz : zScore lvl = some z) :
    runSimulation p (some t) (some bs) lvl = RunOutcome.metrics (flagsOf p t) := by
  simp [runSimulation, isEmpty_false_of_ne hp, hall, hbs, hz]

lemma run_keyerror (p : List Holding) (t : Table) (bs : List OptQ)
    (lvl : ℕ) (hp : p ≠ [])
    (hall : ((dailyReturns t).all fun row => row.length == p.length) = true)
    (hbs : sampleVarOpt (benchReturns bs) ≠ some 0)
    (hz : zScore lvl = none) :
    runSimulation p (some t) (some bs) lvl = RunOutcome.simError := by
  simp [runSimulation, isEmpty_false_of_ne hp, hall, hbs, hz]

/-! ### C6.  Degenerate Sharpe/Sortino statistics -/

/-- C6 counterexample: with a healthy one-stock portfolio but a constant
benchmark price series (zero benchmark standard deviation over two
returns), the run does not report an undefined/infinite ratio: the
benchmark Sharpe division of line 119 divides two built-in floats, so it
raises ZeroDivisionError, which the except of lines 178-179 turns into a
run-aborting error message; no metric is displayed at all. -/
theorem benchmark_zero_std_aborts :
    runSimulation [⟨"A", 100, 10⟩] (some [[some 1], [some 2], [some 4]])
      (some [some 1, some 1, some 1]) 95 = RunOutcome.simError := by
  norm_num [runSimulation, dailyReturns, pctChange, pctRow, pctCell, dropna,
    isCompleteRow, List.zipWith, List.filter, benchReturns, pctChangeS,
    List.filterMap, sampleVarOpt, sampleVar, meanQ]

/-- C6 amended: on the portfolio side the claim holds — whenever the run
reaches the metrics display, a portfolio return series with zero
standard deviation yields a degenerate (infinite or NaN) Sharpe ratio
and an empty downside subset yields a degenerate Sortino ratio, both
rendered with the metrics rather than crashing or being swallowed; for
the benchmark series with zero standard deviation, however, the run
aborts into the caught error branch (see the counterexample). -/
theorem degenerate_stats_flagged (p : List Holding) (t : Table) (bs : List OptQ)
    (lvl : ℕ) (z : ℚ) (hp : p ≠ [])
    (hall : ((dailyReturns t).all fun row => row.length == p.length) = true)
    (hbs : sampleVarOpt (benchReturns bs) ≠ some 0)
    (hz : zScore lvl = some z) :
    runSimulation p (some t) (some bs) lvl = RunOutcome.metrics (flagsOf p t) ∧
    (pvarO (prOf p t) = some 0 → (flagsOf p t).sharpeDeg = true) ∧
    (downsideO (prOf p t) = [] → (flagsOf p t).sortinoDeg = true) := by
  refine ⟨run_reaches_metrics p t bs lvl hp hall hbs z hz, ?_, ?_⟩
  · intro h
    simp [flagsOf, h]
  · intro h
    simp [flagsOf, h, pvarO, valids, sampleVarOpt]

/-- Witness for C6 at a constant-return one-stock portfolio (prices
1, 2, 4: both returns equal 1, zero variance, no negative return). -/
theorem degenerate_stats_flagged_witness :
    runSimulation [⟨"A", 100, 10⟩] (some [[some 1], [some 2], [some 4]])
        (some [some 1, some 2, some 1]) 95 =
      RunOutcome.metrics (flagsOf [⟨"A", 100, 10⟩] [[some 1], [some 2], [some 4]]) ∧
    (flagsOf [⟨"A", 100, 10⟩] [[some 1], [some 2], [some 4]]).sharpeDeg = true ∧
    (flagsOf [⟨"A", 100, 10⟩] [[some 1], [some 2], [some 4]]).sortinoDeg = true := by
  have h := degenerate_stats_flagged [⟨"A", 100, 10⟩] [[some 1], [some 2], [some 4]]
    [some 1, some 2, some 1] 95 1.645 (by simp)
    (by norm_num [dailyReturns, pctChange, pctRow, pctCell, dropna,
      isCompleteRow, List.zipWith, List.filter])
    (by norm_num [benchReturns, pctChangeS, pctCell, sampleVarOpt, sampleVar,
      meanQ, List.zipWith, List.filterMap])
    (by simp [zScore, zTable, List.lookup])
  refine ⟨h.1, h.2.1 ?_, h.2.2 ?_⟩
  · norm_num [pvarO, prOf, dailyReturns, pctChange, pctRow, pctCell, dropna,
      isCompleteRow, List.zipWith, List.filter, dotRow, weightsO, totalValue,
      totalInvestment, omulCell, osum, oadd, valids, List.filterMap,
      sampleVarOpt, sampleVar, meanQ]
  · norm_num [downsideO, prOf, dailyReturns, pctChange, pctRow, pctCell,
      dropna, isCompleteRow, List.zipWith, List.filter, dotRow, weightsO,
      totalValue, totalInvestment, omulCell, osum, oadd]

/-! ### C7.  Fewer than two aligned rows -/

lemma pctRow_complete_parts {a b : List OptQ} (hlen : a.length = b.length)
    (h : isCompleteRow (pctRow a b) = true) :
    isCompleteRow a = true ∧ isCompleteRow b = true := by
  induction a generalizing b with
  | nil =>
    cases b with
    | nil => exact ⟨rfl, rfl⟩
    | cons y ys => simp at hlen
  | cons x xs ih =>
    cases b with
    | nil => simp at hlen
    | cons y ys =>
      have hlen2 : xs.length = ys.length := by simpa using hlen
      rw [pctRow, List.zipWith_cons_cons] at h
      simp only [isCompleteRow, List.all_cons, Bool.and_eq_true] at h ⊢
      obtain ⟨hcell, hrest⟩ := h
      have hxy : x.isSome = true ∧ y.isSome = true := by
        cases x <;> cases y <;>
          first
          | exact ⟨rfl, rfl⟩
          | (exfalso; simp [pctCell] at hcell)
      obtain ⟨ha, hb⟩ := ih hlen2 (by simpa [isCompleteRow, pctRow] using hrest)
      simp only [isCompleteRow, List.all_eq_true] at ha hb
      exact ⟨⟨hxy.1, by simpa [List.all_eq_true] using ha⟩,
        ⟨hxy.2, by simpa [List.all_eq_true] using hb⟩⟩

lemma zip_dropna_nil (L : ℕ) :
    ∀ t : Table, (∀ row ∈ t, row.length = L) →
      t.countP isCompleteRow ≤ 1 →
      dropna (List.zipWith pctRow t t.tail) = [] := by
  intro t
  induction t with
  | nil => intro _ _; rfl
  | cons a rest ih =>
    intro hL hc
    cases rest with
    | nil => rfl
    | cons b rest2 =>
      show dropna (pctRow a b :: List.zipWith pctRow (b :: rest2) rest2) = []
      by_cases hcab : isCompleteRow (pctRow a b) = true
      · exfalso
        have hlen : a.length = b.length := by
          rw [hL a (by simp), hL b (by simp)]
        obtain ⟨hca, hcb⟩ := pctRow_complete_parts hlen hcab
        rw [List.countP_cons, List.countP_cons] at hc
        simp [hca, hcb] at hc
      · rw [dropna, List.filter_cons_of_neg hcab]
        have h2 : ∀ row ∈ b :: rest2, row.length = L :=
          fun row hr => hL row (List.mem_cons_of_mem a hr)
        have h3 : (b :: rest2).countP isCompleteRow ≤ 1 := by
          rw [List.countP_cons] at hc
          omega
        have h4 := ih h2 h3
        simpa [dropna, List.tail_cons] using h4

lemma dailyReturns_nil_of_misaligned (t : Table) (L : ℕ) (h0 : 0 < L)
    (hL : ∀ row ∈ t, row.length = L)
    (halign : t.countP isCompleteRow < 2) :
    dailyReturns t = [] := by
  cases t with
  | nil => rfl
  | cons r rs =>
    have hr : r ≠ [] := by
      intro hnil
      have := hL r (by simp)
      rw [hnil] at this
      simp at this
      omega
    have hincomp : ¬ isCompleteRow (r.map fun _ => none) = true := by
      cases r with
      | nil => exact absurd rfl hr
      | cons c cs => simp [isCompleteRow]
    simp only [dailyReturns, pctChange, dropna]
    rw [List.filter_cons_of_neg hincomp]
    have h4 := zip_dropna_nil L (r :: rs) hL (by omega)
    simpa [dropna, List.tail_cons] using h4

/-- C7 counterexample: a one-row price table (a single aligned price
row, so no return can be computed) does not make the run fail: it
proceeds to the metrics display, where mean, standard deviation, Sharpe
and Sortino are all NaN (the claim demands a surfaced error instead). -/
theorem single_row_run_shows_nan_metrics :
    runSimulation [⟨"A", 100, 10⟩] (some [[some 1]])
        (some [some 1, some 2, some 1]) 95 =
      RunOutcome.metrics (flagsOf [⟨"A", 100, 10⟩] [[some 1]]) ∧
    (flagsOf [⟨"A", 100, 10⟩] [[some 1]]).meanDeg = true ∧
    (flagsOf [⟨"A", 100, 10⟩] [[some 1]]).stdDeg = true ∧
    (flagsOf [⟨"A", 100, 10⟩] [[some 1]]).sharpeDeg = true ∧
    (flagsOf [⟨"A", 100, 10⟩] [[some 1]]).sortinoDeg = true := by
  refine ⟨?_, ?_, ?_, ?_, ?_⟩ <;>
    (norm_num [runSimulation, flagsOf, prOf, dailyReturns, pctChange, pctRow,
      pctCell, dropna, isCompleteRow, List.zipWith, List.filter, benchReturns,
      pctChangeS, List.filterMap, sampleVarOpt, sampleVar, meanQ, pmeanO,
      pvarO, valids, downsideO, zScore, zTable, List.lookup]) <;> rfl

/-- C7 amended: with fewer than two aligned (complete) price rows the
return table is empty, and the run does not surface an error — provided
the other branches stay healthy it reaches the metrics display where
mean, standard deviation, Sharpe and Sortino are all degenerate NaN
values. -/
theorem few_aligned_rows_degenerate (p : List Holding) (t : Table)
    (bs : List OptQ) (lvl : ℕ) (z : ℚ) (hp : p ≠ [])
    (hL : ∀ row ∈ t, row.length = p.length)
    (hbs : sampleVarOpt (benchReturns bs) ≠ some 0)
    (hz : zScore lvl = some z)
    (halign : t.countP isCompleteRow < 2) :
    runSimulation p (some t) (some bs) lvl = RunOutcome.metrics (flagsOf p t) ∧
    (flagsOf p t).meanDeg = true ∧ (flagsOf p t).stdDeg = true ∧
    (flagsOf p t).sharpeDeg = true ∧ (flagsOf p t).sortinoDeg = true := by
  have h0 : 0 < p.length := List.length_pos.mpr hp
  have hnil : dailyReturns t = [] :=
    dailyReturns_nil_of_misaligned t p.length h0 hL halign
  have hall : ((dailyReturns t).all fun row => row.length == p.length) = true := by
    rw [hnil]
    rfl
  have hpr : prOf p t = [] := by simp [prOf, hnil]
  refine ⟨run_reaches_metrics p t bs lvl hp hall hbs z hz, ?_, ?_, ?_, ?_⟩ <;>
    simp [flagsOf, hpr, pmeanO, pvarO, valids, sampleVarOpt, downsideO]

/-- Witness for C7 at the empty price table (zero aligned rows). -/
theorem few_aligned_rows_degenerate_witness :
    runSimulation [⟨"A", 100, 10⟩] (some []) (some [some 1, some 2, some 1]) 95 =
      RunOutcome.metrics (flagsOf [⟨"A", 100, 10⟩] []) ∧
    (flagsOf [⟨"A", 100, 10⟩] []).meanDeg = true := by
  have h := few_aligned_rows_degenerate [⟨"A", 100, 10⟩] [] [some 1, some 2, some 1]
    95 1.645 (by simp) (by simp)
    (by norm_num [benchReturns, pctChangeS, pctCell, sampleVarOpt, sampleVar,
      meanQ, List.zipWith, List.filterMap])
    (by simp [zScore, zTable, List.lookup]) (by decide)
  exact ⟨h.1, h.2.1⟩

/-! ### C10.  Confidence slider versus z-score table -/

/-- C10: the slider admits every integer level from 90 to 99, but the
z-score dictionary has entries only for 90, 95 and 99; for those three
the run reaches the metrics (and VaR) display, while for 91-94 and 96-98
the lookup raises a KeyError and the run ends in the caught error branch
with no VaR result. -/
theorem var_level_lookup_gate (p : List Holding) (t : Table) (bs : List OptQ)
    (lvl : ℕ) (hp : p ≠ [])
    (hall : ((dailyReturns t).all fun row => row.length == p.length) = true)
    (hbs : sampleVarOpt (benchReturns bs) ≠ some 0)
    (h90 : 90 ≤ lvl) (h99 : lvl ≤ 99) :
    ((zScore lvl).isSome = true ↔ (lvl = 90 ∨ lvl = 95 ∨ lvl = 99)) ∧
    ((lvl = 90 ∨ lvl = 95 ∨ lvl = 99) →
      runSimulation p (some t) (some bs) lvl = RunOutcome.metrics (flagsOf p t)) ∧
    ((lvl = 91 ∨ lvl = 92 ∨ lvl = 93 ∨ lvl = 94 ∨
      lvl = 96 ∨ lvl = 97 ∨ lvl = 98) →
      runSimulation p (some t) (some bs) lvl = RunOutcome.simError) := by
  refine ⟨?_, ?_, ?_⟩
  · interval_cases lvl <;> decide
  · rintro (rfl | rfl | rfl)
    · exact run_reaches_metrics p t bs 90 hp hall hbs 1.28
        (by simp [zScore, zTable, List.lookup])
    · exact run_reaches_metrics p t bs 95 hp hall hbs 1.645
        (by simp [zScore, zTable, List.lookup])
    · exact run_reaches_metrics p t bs 99 hp hall hbs 2.33
        (by simp [zScore, zTable, List.lookup])
  · rintro (rfl | rfl | rfl | rfl | rfl | rfl | rfl) <;>
      exact run_keyerror p t bs _ hp hall hbs (by simp [zScore, zTable, List.lookup])

/-- Witness for C10: confidence level 93 ends in the error branch. -/
theorem var_level_lookup_gate_witness :
    runSimulation [⟨"A", 100, 10⟩] (some [[some 1], [some 2], [some 4]])
      (some [some 1, some 2, some 1]) 93 = RunOutcome.simError := by
  have h := var_level_lookup_gate [⟨"A", 100, 10⟩] [[some 1], [some 2], [some 4]]
    [some 1, some 2, some 1] 93 (by simp)
    (by norm_num [dailyReturns, pctChange, pctRow, pctCell, dropna,
      isCompleteRow, List.zipWith, List.filter])
    (by norm_num [benchReturns, pctChangeS, pctCell, sampleVarOpt, sampleVar,
      meanQ, List.zipWith, List.filterMap])
    (by norm_num) (by norm_num)
  exact h.2.2 (by norm_num)
